import Mathlib

/-!
Shallow embedding of the core of `src/analyzer.py` (class `StockAnalyzer`)
together with the configuration constants of `src/config.py`.

Modelling conventions:
* Python floats are modelled as `ℚ`; a pandas `NaN`/`None` cell is `Option.none`.
* A pandas Series/DataFrame column is a `List (Option ℚ)` in index order.
* A fetch attempt that raises an exception is `Option.none`; a returned value
  is `Option.some`.
-/

namespace JpxStockPred

/-- Constant `config.YEARS` (analysis window in years). -/
def YEARS : ℕ := 3

/-- Constant `config.MAX_RETRIES` (API retry count). -/
def MAX_RETRIES : ℕ := 3

/-- Constant `config.RETRY_DELAY` (seconds of sleep between retry attempts). -/
def RETRY_DELAY : ℕ := 2

/-- The per-metric weights of `config.WEIGHTS`; all five default to `1.0`.
Keys mirror the dict keys `score_eps, score_rev, score_roe, score_per,
score_pbr`. -/
structure Weights where
  w_eps : ℚ
  w_rev : ℚ
  w_roe : ℚ
  w_per : ℚ
  w_pbr : ℚ
deriving DecidableEq

/-- The default `config.WEIGHTS`: equal weight `1.0` for each metric. -/
def defaultWeights : Weights := ⟨1, 1, 1, 1, 1⟩

/-- Value `sorted_series.iloc[-(years+1)]` of `calculate_change_rate`: on a list
of length at least `years+1`, the element at position `length - (years+1)`,
i.e. the head of the trailing `years+1`-element suffix. -/
def changeStart (series : List (Option ℚ)) (years : ℕ) : ℚ :=
  ((series.filterMap id).drop ((series.filterMap id).length - (years + 1))).headD 0

/-- Value `sorted_series.iloc[-1]` of `calculate_change_rate`: the last element. -/
def changeEnd (series : List (Option ℚ)) : ℚ :=
  (series.filterMap id).getLastD 0

/-- Embedding of `StockAnalyzer.calculate_change_rate(series, years)`
(analyzer.py:14-25).
The input list is the series in ascending index (chronological) order, with
`none` for null cells, so `series.dropna().sort_index()` is `filterMap id`.
The code then takes `iloc[-(years+1)]` as `start` and `iloc[-1]` as `end`,
returns `None` when fewer than `years+1` observations remain or `start == 0`,
and otherwise `(end - start) / abs(start)`. -/
def calculate_change_rate (series : List (Option ℚ)) (years : ℕ) : Option ℚ :=
  if (series.filterMap id).length < years + 1 then
    none
  else if changeStart series years = 0 then none
  else some ((changeEnd series - changeStart series years) / |changeStart series years|)

/-- One row of the fundamentals DataFrame built by
`StockAnalyzer.get_fundamental_single` (analyzer.py:27-92): the metric cells
are floats-or-NaN and `has_recent_missing_data` is always a bool. -/
structure FundRow where
  ticker : String
  eps_growth : Option ℚ
  revenue_growth : Option ℚ
  per : Option ℚ
  pbr : Option ℚ
  roe : Option ℚ
  has_recent_missing_data : Bool
deriving DecidableEq

/-- The income-statement table `df = stock.income_stmt.T` as consumed by
`get_fundamental_single`: each column is either absent (a `KeyError` on
`df["Diluted EPS"]` / `df["Total Revenue"]`) or a list of optional values in
DataFrame row order, which for `income_stmt.T` is most-recent period first. -/
structure IncomeStmt where
  epsCol : Option (List (Option ℚ))
  revCol : Option (List (Option ℚ))
deriving DecidableEq

/-- The snapshot metrics read from `stock.info` (analyzer.py:69-79):
`info.get` yields `none` for an absent key. -/
structure Snapshot where
  per : Option ℚ
  pbr : Option ℚ
  roe : Option ℚ
deriving DecidableEq

/-- The pure normalization part of `get_fundamental_single`
(analyzer.py:36-84), after the network fetch has produced its raw data.
`stmt = none` models an empty/absent `income_stmt` (early return with only
the flag set, so every metric cell is NaN); `snap = none` models an exception
while reading `stock.info` (all three snapshot metrics set to `None`).
The flag becomes `true` exactly when one of the four trigger sites of the code
fires: absent statement table, a `KeyError` on a growth column, a null among
the two most recent periods of a growth column (`iloc[:2].isna().any()`),
or a null among `per`/`pbr`/`roe`. -/
def normalize_fundamental (ticker : String) (stmt : Option IncomeStmt)
    (snap : Option Snapshot) (years : ℕ) : FundRow :=
  match stmt with
  | none => ⟨ticker, none, none, none, none, none, true⟩
  | some st =>
    let epsPart : Option ℚ × Bool :=
      match st.epsCol with
      | none => (none, true)
      | some col =>
        (calculate_change_rate col.reverse years, (col.take 2).any (·.isNone))
    let revPart : Option ℚ × Bool :=
      match st.revCol with
      | none => (none, true)
      | some col =>
        (calculate_change_rate col.reverse years, (col.take 2).any (·.isNone))
    let snapPart : Option ℚ × Option ℚ × Option ℚ × Bool :=
      match snap with
      | none => (none, none, none, true)
      | some s =>
        (s.per, s.pbr, s.roe, s.per.isNone || s.pbr.isNone || s.roe.isNone)
    ⟨ticker, epsPart.1, revPart.1, snapPart.1, snapPart.2.1, snapPart.2.2.1,
      epsPart.2 || revPart.2 || snapPart.2.2.2⟩

/-- Stage 1 of `calculate_scores` (analyzer.py:120): keep the rows whose
`has_recent_missing_data` is false (`df[~df["has_recent_missing_data"]]`). -/
def stage1Filter (rows : List FundRow) : List FundRow :=
  rows.filter (fun r => !r.has_recent_missing_data)

/-- Row predicate for stage 2 of `calculate_scores` (analyzer.py:122-126):
after `pd.to_numeric(..., errors="coerce")` (the identity on our
float-or-NaN cells), `df.dropna(subset=cols)` keeps a row iff all five
metric cells are non-null. -/
def rowComplete (r : FundRow) : Bool :=
  r.eps_growth.isSome && r.revenue_growth.isSome && r.per.isSome &&
    r.pbr.isSome && r.roe.isSome

/-- Stage 2 of `calculate_scores`: drop the rows with any null metric. -/
def stage2Filter (rows : List FundRow) : List FundRow :=
  rows.filter rowComplete

/-- The rows that survive both filter stages of `calculate_scores` and are
actually scored. -/
def survivors (rows : List FundRow) : List FundRow :=
  stage2Filter (stage1Filter rows)

/-- Metric extractors used only on rows that passed `rowComplete`, where
every cell is `some`; `getD 0` is then exact. -/
def metricEps (r : FundRow) : ℚ := r.eps_growth.getD 0

/-- Extractor for `revenue_growth` (see `metricEps`). -/
def metricRev (r : FundRow) : ℚ := r.revenue_growth.getD 0

/-- Extractor for `roe` (see `metricEps`). -/
def metricRoe (r : FundRow) : ℚ := r.roe.getD 0

/-- Extractor for `per` (see `metricEps`). -/
def metricPer (r : FundRow) : ℚ := r.per.getD 0

/-- Extractor for `pbr` (see `metricEps`). -/
def metricPbr (r : FundRow) : ℚ := r.pbr.getD 0

/-- pandas `Series.rank(pct=True, ascending=True)` with the default
`method="average"` on an all-non-null column: a value `v` occupies the ranks
`c< + 1 .. c< + c=` (where `c<` counts strictly smaller values and `c=`
counts values equal to `v`), receives the average `c< + (c= + 1)/2` of that
tie group, and `pct=True` divides by the population size. -/
def pctRankAsc (pop : List ℚ) (v : ℚ) : ℚ :=
  (((pop.countP fun x => decide (x < v)) : ℚ) +
      (((pop.countP fun x => decide (x = v)) : ℚ) + 1) / 2) / (pop.length : ℚ)

/-- pandas `Series.rank(pct=True, ascending=False)`, `method="average"`:
as `pctRankAsc` with strictly larger values counted first. -/
def pctRankDesc (pop : List ℚ) (v : ℚ) : ℚ :=
  (((pop.countP fun x => decide (v < x)) : ℚ) +
      (((pop.countP fun x => decide (x = v)) : ℚ) + 1) / 2) / (pop.length : ℚ)

/-- A scored output row of `calculate_scores`: the surviving `FundRow`
together with its five percentile scores and the weighted total. -/
structure ScoredRecord where
  base : FundRow
  score_eps : ℚ
  score_rev : ℚ
  score_roe : ℚ
  score_per : ℚ
  score_pbr : ℚ
  score_total : ℚ
deriving DecidableEq

/-- Scoring of one surviving row against the surviving population
(analyzer.py:132-143): ascending percentile rank for `eps_growth`,
`revenue_growth`, `roe`; descending for `per`, `pbr`;
`score_total = (Σ weight·score) / (Σ weight)`. -/
def scoreRow (pop : List FundRow) (w : Weights) (r : FundRow) : ScoredRecord :=
  let se := pctRankAsc (pop.map metricEps) (metricEps r)
  let sr := pctRankAsc (pop.map metricRev) (metricRev r)
  let so := pctRankAsc (pop.map metricRoe) (metricRoe r)
  let sp := pctRankDesc (pop.map metricPer) (metricPer r)
  let sb := pctRankDesc (pop.map metricPbr) (metricPbr r)
  ⟨r, se, sr, so, sp, sb,
    (w.w_eps * se + w.w_rev * sr + w.w_roe * so + w.w_per * sp + w.w_pbr * sb) /
      (w.w_eps + w.w_rev + w.w_roe + w.w_per + w.w_pbr)⟩

/-- The scored table before sorting: every survivor, in input order, scored
against the surviving population. -/
def scoredPipeline (rows : List FundRow) (w : Weights) : List ScoredRecord :=
  (survivors rows).map (scoreRow (survivors rows) w)

/-- The ascending key order of the final sort: compare by `score_total`. -/
def scoreLe (a b : ScoredRecord) : Prop := a.score_total ≤ b.score_total

instance : DecidableRel scoreLe :=
  fun a b => inferInstanceAs (Decidable (a.score_total ≤ b.score_total))

instance : IsTotal ScoredRecord scoreLe :=
  ⟨fun a b => le_total a.score_total b.score_total⟩

instance : IsTrans ScoredRecord scoreLe :=
  ⟨fun _ _ _ h1 h2 => le_trans h1 h2⟩

/-- Embedding of `StockAnalyzer.calculate_scores(df)` (analyzer.py:114-145).
The final `df.sort_values("score_total", ascending=False)` is pandas
`nargsort`: an ascending argsort of the key column whose result is then
reversed for `ascending=False` (`indexer = indexer[::-1]`), so the
descending output is the reverse of an ascending sort. A stable
insertion sort stands in for the ascending argsort; the numpy default
introsort leaves tie order unspecified in general (it coincides with the
stable order only on the small equal-key runs it handles by insertion
sort), so no theorem about general inputs may rely on the tie order this
stand-in fixes. -/
def calculate_scores (rows : List FundRow) (w : Weights) : List ScoredRecord :=
  (List.insertionSort scoreLe (scoredPipeline rows w)).reverse

/-- One row of the concatenated price DataFrame built by
`get_stock_data_parallel` (analyzer.py:175-201), restricted to the columns
`calculate_returns` reads: the `Date` index, `SecuritiesCode`, `Adj Close`
and `ExpectedDividend` (= `Dividends` with nulls filled by 0). Dates are
encoded as integers. -/
structure PriceRow where
  code : String
  date : ℤ
  adjClose : ℚ
  dividend : ℚ
deriving DecidableEq

/-- Default row used only to totalize `headD`/`getLastD` in branches that
are guarded by a length check. -/
def defaultPriceRow : PriceRow := ⟨"", 0, 0, 0⟩

/-- The per-horizon body of `calculate_returns` (analyzer.py:235-266) on one
bar list `df_t` of one ticker (in DataFrame row order) with day-count `days`:
when `len(df_t) > days`, `prev = Adj Close.iloc[-(days+1)]`,
`curr = Adj Close.iloc[-1]`, `ret = (curr - prev)/prev`,
`div_sum = ExpectedDividend.iloc[-(days+1):].sum()` (the trailing `days+1`
bars), `div_yield = div_sum/prev if prev > 0 else 0`, and the pair
`(return, momentum_score) = (ret, ret + div_yield)`; otherwise `(NaN, NaN)`. -/
def horizonCalc (bars : List PriceRow) (days : ℕ) : Option ℚ × Option ℚ :=
  if days < bars.length then
    let window := bars.drop (bars.length - (days + 1))
    let prev := (window.headD defaultPriceRow).adjClose
    let curr := (bars.getLastD defaultPriceRow).adjClose
    let ret := (curr - prev) / prev
    let divSum := (window.map (·.dividend)).sum
    let divYield := if 0 < prev then divSum / prev else 0
    (some ret, some (ret + divYield))
  else
    (none, none)

/-- Value `df_t[close_col].iloc[-1]`: the adjusted close of the last bar. -/
def closeNow (bars : List PriceRow) : ℚ :=
  (bars.getLastD defaultPriceRow).adjClose

/-- Value `df_t[close_col].iloc[-(days+1)]`: the adjusted close `days` bars back
from the end, i.e. the head of the trailing `days+1`-bar window. -/
def closeBack (bars : List PriceRow) (days : ℕ) : ℚ :=
  ((bars.drop (bars.length - (days + 1))).headD defaultPriceRow).adjClose

/-- Value `df_t["ExpectedDividend"].iloc[-(days+1):].sum()`: the dividend total
over the trailing `days+1` bars. -/
def divWindowSum (bars : List PriceRow) (days : ℕ) : ℚ :=
  ((bars.drop (bars.length - (days + 1))).map (·.dividend)).sum

/-- One row of the momentum table returned by `calculate_returns`: per
horizon, the trailing return and momentum score, `none` standing for NaN. -/
structure MomentumRecord where
  code : String
  return_1day : Option ℚ
  momentum_score_1day : Option ℚ
  return_1month : Option ℚ
  momentum_score_1month : Option ℚ
  return_3month : Option ℚ
  momentum_score_3month : Option ℚ
  return_6month : Option ℚ
  momentum_score_6month : Option ℚ
deriving DecidableEq

/-- The record built for one ticker (analyzer.py:233-268), evaluating the
horizon body at the fixed trading-day counts 1, 21, 63, 126. -/
def mkMomentum (code : String) (bars : List PriceRow) : MomentumRecord :=
  ⟨code,
    (horizonCalc bars 1).1, (horizonCalc bars 1).2,
    (horizonCalc bars 21).1, (horizonCalc bars 21).2,
    (horizonCalc bars 63).1, (horizonCalc bars 63).2,
    (horizonCalc bars 126).1, (horizonCalc bars 126).2⟩

/-- Loop of `df_price["SecuritiesCode"].unique()`: the distinct codes in order of
first appearance, with a seen-accumulator. -/
def uniqueCodesGo : List String → List String → List String
  | [], _ => []
  | a :: l, seen =>
    if a ∈ seen then uniqueCodesGo l seen else a :: uniqueCodesGo l (a :: seen)

/-- The distinct securities codes of the price table, in order of first
appearance (pandas `unique`). -/
def uniqueCodes (l : List String) : List String := uniqueCodesGo l []

/-- The rows of the price table belonging to one code
(`df_price[df_price["SecuritiesCode"] == code]`), in table order. -/
def barsFor (rows : List PriceRow) (code : String) : List PriceRow :=
  rows.filter fun r => decide (r.code = code)

/-- Embedding of `StockAnalyzer.calculate_returns(df_price, latest_date)`
(analyzer.py:203-270): for each distinct code, skip it when its sub-frame is
empty or `latest_date` is not among its dates; otherwise emit the momentum
record for its bar list. -/
def calculate_returns (rows : List PriceRow) (asOf : ℤ) : List MomentumRecord :=
  (uniqueCodes (rows.map (·.code))).filterMap fun code =>
    if barsFor rows code = [] then none
    else if asOf ∈ (barsFor rows code).map (·.date) then
      some (mkMomentum code (barsFor rows code))
    else none

/-- The retry loop of `get_fundamental_single` (analyzer.py:31-92): the body
at attempt number `n` is `f n` (`none` = the outer `try` raised). Returns
the outcome, the number of attempts made, and the total seconds slept
(`time.sleep(RETRY_DELAY)` runs only after a failed attempt that is not the
last allowed one). `fuel` is the number of attempts still allowed. -/
def retryGo (f : ℕ → Option ℚ) (attempt fuel : ℕ) : Option ℚ × ℕ × ℕ :=
  match fuel with
  | 0 => (none, 0, 0)
  | n + 1 =>
    match f attempt with
    | some v => (some v, 1, 0)
    | none =>
      if n = 0 then (none, 1, 0)
      else
        let rest := retryGo f (attempt + 1) n
        (rest.1, rest.2.1 + 1, rest.2.2 + RETRY_DELAY)

/-- The fundamentals fetch of one ticker under the retry policy of
`get_fundamental_single`: up to `MAX_RETRIES` attempts, `RETRY_DELAY`
seconds of sleep between consecutive attempts, final failure returned as
`None` (a dropped key), never raised. -/
def get_fundamental_retry (f : ℕ → Option ℚ) : Option ℚ × ℕ × ℕ :=
  retryGo f 0 MAX_RETRIES

/-- Embedding of `get_stock_data_single` (analyzer.py:175-188): a single `try` with a
bare `except` returning `None` — one attempt, no retry loop, no sleep. -/
def get_stock_data_single_model (f : ℕ → Option ℚ) : Option ℚ :=
  f 0

lemma mem_uniqueCodesGo {x : String} :
    ∀ {l seen : List String}, x ∈ uniqueCodesGo l seen ↔ x ∈ l ∧ x ∉ seen := by
  intro l
  induction l with
  | nil => intro seen; simp [uniqueCodesGo]
  | cons a t ih =>
    intro seen
    simp only [uniqueCodesGo]
    by_cases hseen : a ∈ seen
    · rw [if_pos hseen, ih]
      constructor
      · rintro ⟨hxt, hxs⟩
        exact ⟨List.mem_cons_of_mem a hxt, hxs⟩
      · rintro ⟨hxc, hxs⟩
        rcases List.mem_cons.mp hxc with rfl | hxt
        · exact absurd hseen hxs
        · exact ⟨hxt, hxs⟩
    · rw [if_neg hseen]
      constructor
      · intro hx
        rcases List.mem_cons.mp hx with rfl | hxt
        · exact ⟨List.mem_cons_self _ _, hseen⟩
        · obtain ⟨hxt2, hxs⟩ := ih.mp hxt
          exact ⟨List.mem_cons_of_mem a hxt2,
            fun hm => hxs (List.mem_cons_of_mem _ hm)⟩
      · rintro ⟨hxc, hxs⟩
        rcases List.mem_cons.mp hxc with rfl | hxt
        · exact List.mem_cons_self _ _
        · by_cases hxa : x = a
          · subst hxa
            exact List.mem_cons_self _ _
          · exact List.mem_cons_of_mem _ (ih.mpr
              ⟨hxt, fun hm => (List.mem_cons.mp hm).elim hxa hxs⟩)

lemma mem_uniqueCodes {x : String} {l : List String} :
    x ∈ uniqueCodes l ↔ x ∈ l := by
  simp [uniqueCodes, mem_uniqueCodesGo]

lemma mem_calculate_scores {rows : List FundRow} {w : Weights} {s : ScoredRecord} :
    s ∈ calculate_scores rows w ↔ s ∈ scoredPipeline rows w := by
  rw [calculate_scores, List.mem_reverse, List.mem_insertionSort]

lemma scoreRow_base (pop : List FundRow) (w : Weights) (r : FundRow) :
    (scoreRow pop w r).base = r := rfl

lemma countP_lt_add_countP_eq_le (pop : List ℚ) (v : ℚ) :
    (pop.countP fun x => decide (x < v)) + (pop.countP fun x => decide (x = v)) ≤
      pop.length := by
  induction pop with
  | nil => simp
  | cons a t ih =>
    simp only [List.countP_cons, List.length_cons]
    by_cases h1 : a < v
    · have h2 : ¬(a = v) := fun he => absurd h1 (by simp [he])
      simp [h1, h2]
      omega
    · by_cases h2 : a = v <;> simp [h1, h2] <;> omega

lemma countP_gt_add_countP_eq_le (pop : List ℚ) (v : ℚ) :
    (pop.countP fun x => decide (v < x)) + (pop.countP fun x => decide (x = v)) ≤
      pop.length := by
  induction pop with
  | nil => simp
  | cons a t ih =>
    simp only [List.countP_cons, List.length_cons]
    by_cases h1 : v < a
    · have h2 : ¬(a = v) := fun he => absurd h1 (by simp [he])
      simp [h1, h2]
      omega
    · by_cases h2 : a = v <;> simp [h1, h2] <;> omega

lemma pctRankAsc_nonneg (pop : List ℚ) (v : ℚ) : 0 ≤ pctRankAsc pop v := by
  rw [pctRankAsc]
  positivity

lemma pctRankDesc_nonneg (pop : List ℚ) (v : ℚ) : 0 ≤ pctRankDesc pop v := by
  rw [pctRankDesc]
  positivity

lemma countP_eq_pos_of_mem {pop : List ℚ} {v : ℚ} (h : v ∈ pop) :
    0 < pop.countP fun x => decide (x = v) := by
  apply List.countP_pos_iff.mpr
  exact ⟨v, h, by simp⟩

lemma pctRankAsc_le_one {pop : List ℚ} {v : ℚ} (h : v ∈ pop) :
    pctRankAsc pop v ≤ 1 := by
  have hn : 0 < pop.length := List.length_pos.mpr (List.ne_nil_of_mem h)
  have hc1 := countP_eq_pos_of_mem h
  have hle := countP_lt_add_countP_eq_le pop v
  rw [pctRankAsc, div_le_one (by exact_mod_cast hn)]
  have h1 : ((pop.countP fun x => decide (x < v)) : ℚ) +
      ((pop.countP fun x => decide (x = v)) : ℚ) ≤ (pop.length : ℚ) := by
    exact_mod_cast hle
  have h2 : (1 : ℚ) ≤ ((pop.countP fun x => decide (x = v)) : ℚ) := by
    exact_mod_cast hc1
  linarith

lemma pctRankDesc_le_one {pop : List ℚ} {v : ℚ} (h : v ∈ pop) :
    pctRankDesc pop v ≤ 1 := by
  have hn : 0 < pop.length := List.length_pos.mpr (List.ne_nil_of_mem h)
  have hc1 := countP_eq_pos_of_mem h
  have hle := countP_gt_add_countP_eq_le pop v
  rw [pctRankDesc, div_le_one (by exact_mod_cast hn)]
  have h1 : ((pop.countP fun x => decide (v < x)) : ℚ) +
      ((pop.countP fun x => decide (x = v)) : ℚ) ≤ (pop.length : ℚ) := by
    exact_mod_cast hle
  have h2 : (1 : ℚ) ≤ ((pop.countP fun x => decide (x = v)) : ℚ) := by
    exact_mod_cast hc1
  linarith

lemma pctRankAsc_eq_one_of_max {pop : List ℚ} {v : ℚ}
    (hcount : (pop.countP fun x => decide (x = v)) = 1)
    (hmax : ∀ x ∈ pop, x ≤ v) : pctRankAsc pop v = 1 := by
  have hsplit := List.length_eq_countP_add_countP (fun x => decide (x < v)) pop
  have hcongr : (pop.countP fun a => decide ¬(decide (a < v) = true)) =
      (pop.countP fun x => decide (x = v)) := by
    apply List.countP_congr
    intro x hx
    simp only [decide_eq_true_eq, decide_not, Bool.not_eq_true', decide_eq_false_iff_not]
    constructor
    · intro hnlt
      exact le_antisymm (hmax x hx) (not_lt.mp hnlt)
    · intro he
      subst he
      exact lt_irrefl x
  have hlen : pop.length = (pop.countP fun x => decide (x < v)) + 1 := by
    rw [hsplit, hcongr, hcount]
  rw [pctRankAsc, hcount, hlen]
  push_cast
  rw [show ((1 : ℚ) + 1) / 2 = 1 by norm_num]
  rw [div_self (by positivity)]

lemma pctRankAsc_singleton (v : ℚ) : pctRankAsc [v] v = 1 := by
  rw [pctRankAsc]
  simp [List.countP_cons, lt_irrefl]

lemma pctRankDesc_singleton (v : ℚ) : pctRankDesc [v] v = 1 := by
  rw [pctRankDesc]
  simp [List.countP_cons, lt_irrefl]

lemma mkMomentum_mem_calculate_returns {rows : List PriceRow} {asOf : ℤ}
    {code : String} (hne : barsFor rows code ≠ [])
    (hdate : asOf ∈ (barsFor rows code).map (·.date)) :
    mkMomentum code (barsFor rows code) ∈ calculate_returns rows asOf := by
  rw [calculate_returns, List.mem_filterMap]
  refine ⟨code, ?_, ?_⟩
  · rw [mem_uniqueCodes]
    obtain ⟨r, hr⟩ := List.exists_mem_of_ne_nil _ hne
    obtain ⟨hrm, hrc⟩ := List.mem_filter.mp hr
    exact List.mem_map.mpr ⟨r, hrm, of_decide_eq_true hrc⟩
  · rw [if_neg hne, if_pos hdate]

lemma calculate_returns_mem_elim {rows : List PriceRow} {asOf : ℤ}
    {rec : MomentumRecord} (h : rec ∈ calculate_returns rows asOf) :
    ∃ c, rec = mkMomentum c (barsFor rows c) ∧ barsFor rows c ≠ [] ∧
      asOf ∈ (barsFor rows c).map (·.date) := by
  rw [calculate_returns, List.mem_filterMap] at h
  obtain ⟨c, hc, hfc⟩ := h
  by_cases h1 : barsFor rows c = []
  · rw [if_pos h1] at hfc
    exact absurd hfc (by simp)
  · rw [if_neg h1] at hfc
    by_cases h2 : asOf ∈ (barsFor rows c).map (·.date)
    · rw [if_pos h2] at hfc
      exact ⟨c, (Option.some.inj hfc).symm, h1, h2⟩
    · rw [if_neg h2] at hfc
      exact absurd hfc (by simp)

/-- C1: for every ticker whose bar sequence contains the as-of date, a
momentum record is emitted whose per-horizon fields come from the fixed
trading-day counts 1, 21, 63, 126; a horizon with at least `n+1` bars gets
`return = (close_now - close_n_back) / close_n_back` on the adjusted close,
and a horizon with fewer than `n+1` bars gets `none` for both its return and
momentum score, each horizon decided independently of the others. -/
theorem c1_horizon_returns (rows : List PriceRow) (asOf : ℤ) (code : String)
    (hne : barsFor rows code ≠ [])
    (hdate : asOf ∈ (barsFor rows code).map (·.date)) :
    ∃ rec ∈ calculate_returns rows asOf,
      rec.code = code ∧
      rec.return_1day = (horizonCalc (barsFor rows code) 1).1 ∧
      rec.momentum_score_1day = (horizonCalc (barsFor rows code) 1).2 ∧
      rec.return_1month = (horizonCalc (barsFor rows code) 21).1 ∧
      rec.momentum_score_1month = (horizonCalc (barsFor rows code) 21).2 ∧
      rec.return_3month = (horizonCalc (barsFor rows code) 63).1 ∧
      rec.momentum_score_3month = (horizonCalc (barsFor rows code) 63).2 ∧
      rec.return_6month = (horizonCalc (barsFor rows code) 126).1 ∧
      rec.momentum_score_6month = (horizonCalc (barsFor rows code) 126).2 ∧
      (∀ n : ℕ, n + 1 ≤ (barsFor rows code).length →
        (horizonCalc (barsFor rows code) n).1 =
          some ((closeNow (barsFor rows code) - closeBack (barsFor rows code) n) /
            closeBack (barsFor rows code) n)) ∧
      (∀ n : ℕ, (barsFor rows code).length < n + 1 →
        (horizonCalc (barsFor rows code) n).1 = none ∧
        (horizonCalc (barsFor rows code) n).2 = none) := by
  refine ⟨mkMomentum code (barsFor rows code),
    mkMomentum_mem_calculate_returns hne hdate,
    rfl, rfl, rfl, rfl, rfl, rfl, rfl, rfl, rfl, ?_, ?_⟩
  · intro n hn
    unfold horizonCalc
    rw [if_pos (by omega)]
    rfl
  · intro n hn
    unfold horizonCalc
    rw [if_neg (by omega)]
    exact ⟨rfl, rfl⟩

/-- C5: where a horizon is computed, the dividend sum ranges over the
trailing `n+1` bars, the dividend yield divides it by the base close (zero
when the base close is non-positive), and the momentum score is the return
plus that yield; all-zero dividends give `momentum = return`, and a constant
positive dividend with a positive base close gives `momentum > return`. -/
theorem c5_momentum_dividends (bars : List PriceRow) (days : ℕ)
    (h : days < bars.length) :
    (bars.drop (bars.length - (days + 1))).length = days + 1 ∧
    (horizonCalc bars days).1 =
      some ((closeNow bars - closeBack bars days) / closeBack bars days) ∧
    (horizonCalc bars days).2 =
      some ((closeNow bars - closeBack bars days) / closeBack bars days +
        (if 0 < closeBack bars days then divWindowSum bars days / closeBack bars days
          else 0)) ∧
    ((∀ b ∈ bars, b.dividend = 0) →
      (horizonCalc bars days).2 = (horizonCalc bars days).1) ∧
    (∀ d : ℚ, 0 < d → (∀ b ∈ bars, b.dividend = d) → 0 < closeBack bars days →
      ∃ r m, (horizonCalc bars days).1 = some r ∧
        (horizonCalc bars days).2 = some m ∧ r < m) := by
  have hwin : (bars.drop (bars.length - (days + 1))).length = days + 1 := by
    rw [List.length_drop]
    omega
  have e1 : (horizonCalc bars days).1 =
      some ((closeNow bars - closeBack bars days) / closeBack bars days) := by
    unfold horizonCalc
    rw [if_pos h]
    rfl
  have e2 : (horizonCalc bars days).2 =
      some ((closeNow bars - closeBack bars days) / closeBack bars days +
        (if 0 < closeBack bars days then divWindowSum bars days / closeBack bars days
          else 0)) := by
    unfold horizonCalc
    rw [if_pos h]
    rfl
  refine ⟨hwin, e1, e2, ?_, ?_⟩
  · intro hdiv
    have hsum : divWindowSum bars days = 0 := by
      apply List.sum_eq_zero
      intro x hx
      rw [List.mem_map] at hx
      obtain ⟨b, hb, rfl⟩ := hx
      exact hdiv b (List.mem_of_mem_drop hb)
    rw [e1, e2, hsum]
    simp
  · intro d hd hdiv hprev
    have hsum : divWindowSum bars days = (days + 1) • d := by
      rw [divWindowSum]
      rw [List.sum_eq_card_nsmul _ d ?_, List.length_map, hwin]
      intro x hx
      rw [List.mem_map] at hx
      obtain ⟨b, hb, rfl⟩ := hx
      exact hdiv b (List.mem_of_mem_drop hb)
    have hpos : 0 < divWindowSum bars days := by
      rw [hsum]
      exact nsmul_pos hd (by omega)
    refine ⟨(closeNow bars - closeBack bars days) / closeBack bars days,
      (closeNow bars - closeBack bars days) / closeBack bars days +
        divWindowSum bars days / closeBack bars days, e1, ?_, ?_⟩
    · rw [e2, if_pos hprev]
    · exact lt_add_of_pos_right _ (div_pos hpos hprev)

/-- C8: a ticker whose bar list does not contain the as-of date produces no
momentum record at all, while every ticker that has bars containing the
as-of date still produces one. -/
theorem c8_skip_missing_asof (rows : List PriceRow) (asOf : ℤ) (code : String)
    (habs : asOf ∉ (barsFor rows code).map (·.date)) :
    (∀ rec ∈ calculate_returns rows asOf, rec.code ≠ code) ∧
    (∀ c, barsFor rows c ≠ [] → asOf ∈ (barsFor rows c).map (·.date) →
      ∃ rec ∈ calculate_returns rows asOf, rec.code = c) := by
  constructor
  · intro rec hrec heq
    obtain ⟨c, hrc, hne, hdate⟩ := calculate_returns_mem_elim hrec
    have hcc : rec.code = c := by
      rw [hrc]
      rfl
    rw [hcc] at heq
    subst heq
    exact habs hdate
  · intro c hne hdate
    exact ⟨mkMomentum c (barsFor rows c),
      mkMomentum_mem_calculate_returns hne hdate, rfl⟩

/-- C9: the scoring engine only outputs tickers present in its input table,
and the momentum calculator only outputs securities codes present in its
input price table. -/
theorem c9_no_invented_tickers (rows : List FundRow) (w : Weights)
    (prows : List PriceRow) (asOf : ℤ) :
    (∀ s ∈ calculate_scores rows w, s.base.ticker ∈ rows.map (·.ticker)) ∧
    (∀ rec ∈ calculate_returns prows asOf, rec.code ∈ prows.map (·.code)) := by
  constructor
  · intro s hs
    rw [mem_calculate_scores, scoredPipeline, List.mem_map] at hs
    obtain ⟨r, hr, rfl⟩ := hs
    rw [scoreRow_base]
    rw [survivors, stage2Filter] at hr
    have h1 := (List.mem_filter.mp hr).1
    rw [stage1Filter] at h1
    have h2 := (List.mem_filter.mp h1).1
    exact List.mem_map.mpr ⟨r, h2, rfl⟩
  · intro rec hrec
    obtain ⟨c, hrc, hne, _⟩ := calculate_returns_mem_elim hrec
    obtain ⟨r, hr⟩ := List.exists_mem_of_ne_nil _ hne
    obtain ⟨hrm, hcode⟩ := List.mem_filter.mp hr
    have hcc : rec.code = c := by
      rw [hrc]
      rfl
    rw [hcc]
    exact List.mem_map.mpr ⟨r, hrm, of_decide_eq_true hcode⟩

/-- C2: `calculate_change_rate` returns `none` on fewer than `years+1`
non-null observations, returns `none` when the base value is exactly zero,
and otherwise returns `(latest - past) / abs(past)`; the absolute-value
denominator keeps the sign of the rate equal to the sign of the change. -/
theorem c2_change_rate_cases (series : List (Option ℚ)) (years : ℕ) :
    ((series.filterMap id).length < years + 1 →
      calculate_change_rate series years = none) ∧
    (years + 1 ≤ (series.filterMap id).length →
      (changeStart series years = 0 → calculate_change_rate series years = none) ∧
      (changeStart series years ≠ 0 →
        calculate_change_rate series years =
          some ((changeEnd series - changeStart series years) /
            |changeStart series years|))) ∧
    (∀ q, calculate_change_rate series years = some q →
      (changeStart series years < changeEnd series ↔ 0 < q)) := by
  refine ⟨?_, ?_, ?_⟩
  · intro h
    rw [calculate_change_rate, if_pos h]
  · intro h
    constructor
    · intro h0
      rw [calculate_change_rate, if_neg (by omega), if_pos h0]
    · intro h0
      rw [calculate_change_rate, if_neg (by omega), if_neg h0]
  · intro q hq
    rw [calculate_change_rate] at hq
    by_cases h1 : (series.filterMap id).length < years + 1
    · rw [if_pos h1] at hq
      exact absurd hq (by simp)
    · rw [if_neg h1] at hq
      by_cases h2 : changeStart series years = 0
      · rw [if_pos h2] at hq
        exact absurd hq (by simp)
      · rw [if_neg h2] at hq
        have hpos : 0 < |changeStart series years| := abs_pos.mpr h2
        rw [← Option.some.inj hq, lt_div_iff₀ hpos, zero_mul]
        exact sub_pos.symm

/-- A fetch body that raises on the first two attempts and succeeds on the
third. -/
def failTwice : ℕ → Option ℚ := fun n => if 2 ≤ n then some 1 else none

/-- C3 counterexample: under the price phase (`get_stock_data_single`,
which has no retry loop), a fetch that fails twice and would succeed on the
third attempt yields a dropped key, not the Success the claim requires;
the same fetch under the fundamentals retry loop does succeed. -/
theorem c3_counterexample :
    get_stock_data_single_model failTwice = none ∧
    (get_fundamental_retry failTwice).1 = some 1 :=
  ⟨rfl, rfl⟩

/-- C3 amended: only the fundamentals phase retries: up to `MAX_RETRIES`
(3) attempts with `RETRY_DELAY` slept between consecutive attempts, success
on the third attempt giving `Success` after exactly 3 attempts, and a fetch
that always fails giving a dropped key after exactly 3 attempts; the price
phase makes exactly one attempt, so its outcome is that of the first attempt. -/
theorem c3_retry_phases (f g : ℕ → Option ℚ) (v : ℚ)
    (h0 : f 0 = none) (h1 : f 1 = none) (h2 : f 2 = some v)
    (hg : ∀ n, g n = none) :
    get_fundamental_retry f = (some v, 3, 2 * RETRY_DELAY) ∧
    get_fundamental_retry g = (none, 3, 2 * RETRY_DELAY) ∧
    get_stock_data_single_model f = none ∧
    get_stock_data_single_model g = none := by
  refine ⟨?_, ?_, h0, hg 0⟩
  · simp [get_fundamental_retry, MAX_RETRIES, retryGo, h0, h1, h2, RETRY_DELAY]
  · simp [get_fundamental_retry, MAX_RETRIES, retryGo, hg, RETRY_DELAY]

/-- C7: the scored output is exactly (as a multiset) the input rows that
pass the missing-data-flag filter and then the null-metric filter; no other
record receives a score. -/
theorem c7_two_stage_filter (rows : List FundRow) (w : Weights) :
    ((calculate_scores rows w).map fun s => s.base).Perm
      ((rows.filter fun r => !r.has_recent_missing_data).filter rowComplete) := by
  have h1 : (calculate_scores rows w).Perm (scoredPipeline rows w) :=
    (List.reverse_perm _).trans (List.perm_insertionSort _ _)
  have h2 := h1.map fun s => s.base
  have h3 : ((scoredPipeline rows w).map fun s => s.base) = survivors rows := by
    rw [scoredPipeline, List.map_map]
    have hfun : ((fun s : ScoredRecord => s.base) ∘ scoreRow (survivors rows) w) =
        fun r => r := by
      funext r
      rfl
    rw [hfun]
    exact List.map_id _
  rw [h3] at h2
  exact h2

/-- C6: with at least two survivors every percentile score lies in [0,1];
the survivor holding the unique maximum raw `eps_growth` scores
`score_eps = 1`; and a lone survivor scores 1 on all five metrics, the
descending-direction ones included. -/
theorem c6_score_bounds (rows : List FundRow) (w : Weights) :
    (2 ≤ (survivors rows).length →
      ∀ s ∈ calculate_scores rows w,
        (0 ≤ s.score_eps ∧ s.score_eps ≤ 1) ∧
        (0 ≤ s.score_rev ∧ s.score_rev ≤ 1) ∧
        (0 ≤ s.score_roe ∧ s.score_roe ≤ 1) ∧
        (0 ≤ s.score_per ∧ s.score_per ≤ 1) ∧
        (0 ≤ s.score_pbr ∧ s.score_pbr ≤ 1)) ∧
    (∀ r ∈ survivors rows,
      (((survivors rows).map metricEps).countP fun x => decide (x = metricEps r)) = 1 →
      (∀ x ∈ (survivors rows).map metricEps, x ≤ metricEps r) →
      ∃ s ∈ calculate_scores rows w, s.base = r ∧ s.score_eps = 1) ∧
    (∀ r, survivors rows = [r] →
      calculate_scores rows w = [scoreRow [r] w r] ∧
      (scoreRow [r] w r).score_eps = 1 ∧ (scoreRow [r] w r).score_rev = 1 ∧
      (scoreRow [r] w r).score_roe = 1 ∧ (scoreRow [r] w r).score_per = 1 ∧
      (scoreRow [r] w r).score_pbr = 1) := by
  refine ⟨?_, ?_, ?_⟩
  · intro _ s hs
    rw [mem_calculate_scores, scoredPipeline, List.mem_map] at hs
    obtain ⟨r, hr, rfl⟩ := hs
    exact ⟨⟨pctRankAsc_nonneg _ _, pctRankAsc_le_one (List.mem_map_of_mem metricEps hr)⟩,
      ⟨pctRankAsc_nonneg _ _, pctRankAsc_le_one (List.mem_map_of_mem metricRev hr)⟩,
      ⟨pctRankAsc_nonneg _ _, pctRankAsc_le_one (List.mem_map_of_mem metricRoe hr)⟩,
      ⟨pctRankDesc_nonneg _ _, pctRankDesc_le_one (List.mem_map_of_mem metricPer hr)⟩,
      ⟨pctRankDesc_nonneg _ _, pctRankDesc_le_one (List.mem_map_of_mem metricPbr hr)⟩⟩
  · intro r hr hcount hmax
    refine ⟨scoreRow (survivors rows) w r, ?_, rfl, ?_⟩
    · rw [mem_calculate_scores, scoredPipeline]
      exact List.mem_map_of_mem _ hr
    · exact pctRankAsc_eq_one_of_max hcount hmax
  · intro r hsurv
    have hpipe : scoredPipeline rows w = [scoreRow [r] w r] := by
      rw [scoredPipeline, hsurv]
      rfl
    refine ⟨?_, pctRankAsc_singleton _, pctRankAsc_singleton _,
      pctRankAsc_singleton _, pctRankDesc_singleton _, pctRankDesc_singleton _⟩
    rw [calculate_scores, hpipe]
    rfl

/-- The C10 statement table: EPS and revenue columns each hold exactly
`YEARS` (= 3) non-null observations, most-recent first, with the two most
recent non-null. -/
def c10Stmt : IncomeStmt :=
  ⟨some [some 1, some 2, some 3], some [some 4, some 5, some 6]⟩

/-- The C10 snapshot: PER, PBR and ROE all present. -/
def c10Snap : Snapshot := ⟨some 10, some 1, some 2⟩

/-- The normalized fundamentals record for the C10 input. -/
def c10Row : FundRow :=
  normalize_fundamental "1301.T" (some c10Stmt) (some c10Snap) YEARS

/-- C10: a record can have `has_recent_missing_data = false` yet null growth
fields — three non-null observations are too few for `calculate_change_rate`
with `years = 3` but keep the flag clear; such a record survives the flag
filter of `calculate_scores` and is removed only by the null-coercion
filter. -/
theorem c10_flag_vs_growth_nulls :
    c10Row.has_recent_missing_data = false ∧
    c10Row.eps_growth = none ∧
    c10Row.revenue_growth = none ∧
    c10Row.per = some 10 ∧ c10Row.pbr = some 1 ∧ c10Row.roe = some 2 ∧
    stage1Filter [c10Row] = [c10Row] ∧
    stage2Filter (stage1Filter [c10Row]) = [] ∧
    calculate_scores [c10Row] defaultWeights = [] := by
  refine ⟨rfl, rfl, rfl, rfl, rfl, rfl, rfl, rfl, rfl⟩

/-- Concrete three-bar price history for ticker X containing the as-of
date 2. -/
def c1Rows : List PriceRow := [⟨"X", 0, 100, 0⟩, ⟨"X", 1, 110, 0⟩, ⟨"X", 2, 121, 0⟩]

/-- Witness for C1 at the concrete three-bar input. -/
theorem c1_horizon_returns_witness :
    ∃ rec ∈ calculate_returns c1Rows 2, rec.code = "X" ∧
      rec.return_1day = (horizonCalc (barsFor c1Rows "X") 1).1 := by
  obtain ⟨rec, hmem, hcode, h1, _⟩ :=
    c1_horizon_returns c1Rows 2 "X" (by decide) (by decide)
  exact ⟨rec, hmem, hcode, h1⟩

/-- Witness for C2 on three concrete series: enough history, short history,
and a zero base value. -/
theorem c2_change_rate_cases_witness :
    calculate_change_rate [some 1, none, some 2, some 3, some 4] 3 = some 3 ∧
    calculate_change_rate [some 1, some 2, some 3] 3 = none ∧
    calculate_change_rate [some 0, some 2, some 3, some 4] 3 = none := by
  refine ⟨?_, ?_, ?_⟩
  · have h := ((c2_change_rate_cases [some 1, none, some 2, some 3, some 4] 3).2.1
      (by decide)).2 (by decide)
    rw [h]
    norm_num [changeStart, changeEnd, List.filterMap_cons, List.filterMap_nil]
  · exact (c2_change_rate_cases [some 1, some 2, some 3] 3).1 (by decide)
  · exact ((c2_change_rate_cases [some 0, some 2, some 3, some 4] 3).2.1
      (by decide)).1 (by decide)

/-- Witness for the amended C3 at the concrete fetch bodies. -/
theorem c3_retry_phases_witness :
    get_fundamental_retry failTwice = (some 1, 3, 2 * RETRY_DELAY) ∧
    get_fundamental_retry (fun _ => none) = (none, 3, 2 * RETRY_DELAY) ∧
    get_stock_data_single_model failTwice = none ∧
    get_stock_data_single_model (fun _ => none) = none :=
  c3_retry_phases failTwice (fun _ => none) 1 rfl rfl rfl (fun _ => rfl)

/-- Concrete three-bar history with a constant positive dividend of 1. -/
def c5Bars : List PriceRow := [⟨"X", 0, 100, 1⟩, ⟨"X", 1, 110, 1⟩, ⟨"X", 2, 121, 1⟩]

/-- Witness for C5 at the constant-dividend three-bar input. -/
theorem c5_momentum_dividends_witness :
    ∃ r m, (horizonCalc c5Bars 1).1 = some r ∧
      (horizonCalc c5Bars 1).2 = some m ∧ r < m := by
  refine (c5_momentum_dividends c5Bars 1 (by decide)).2.2.2.2 1 (by norm_num) ?_ ?_
  · intro b hb
    fin_cases hb <;> rfl
  · norm_num [closeBack, c5Bars]

/-- Survivor with the strictly larger metrics of the C6 witness pair. -/
def c6R1 : FundRow := ⟨"A", some 2, some 2, some 2, some 2, some 2, false⟩

/-- Survivor with the strictly smaller metrics of the C6 witness pair. -/
def c6R2 : FundRow := ⟨"B", some 1, some 1, some 1, some 1, some 1, false⟩

/-- Witness for C6: bounds and unique-maximum at a two-survivor input, and
the lone-survivor case. -/
theorem c6_score_bounds_witness :
    (∃ s ∈ calculate_scores [c6R1, c6R2] defaultWeights,
      s.base = c6R1 ∧ s.score_eps = 1 ∧ 0 ≤ s.score_pbr ∧ s.score_pbr ≤ 1) ∧
    calculate_scores [c6R2] defaultWeights = [scoreRow [c6R2] defaultWeights c6R2] ∧
    (scoreRow [c6R2] defaultWeights c6R2).score_per = 1 := by
  constructor
  · obtain ⟨s, hmem, hbase, heps⟩ :=
      (c6_score_bounds [c6R1, c6R2] defaultWeights).2.1 c6R1 (by decide) (by decide)
        (by decide)
    have hb := (c6_score_bounds [c6R1, c6R2] defaultWeights).1 (by decide) s hmem
    exact ⟨s, hmem, hbase, heps, hb.2.2.2.2.1, hb.2.2.2.2.2⟩
  · have h3 := (c6_score_bounds [c6R2] defaultWeights).2.2 c6R2 (by decide)
    exact ⟨h3.1, h3.2.2.2.2.1⟩

/-- Price table for the C8 witness: X has the as-of date 1, Y does not. -/
def c8Rows : List PriceRow := [⟨"X", 0, 100, 0⟩, ⟨"X", 1, 110, 0⟩, ⟨"Y", 0, 50, 0⟩]

/-- Witness for C8 at the concrete two-ticker price table. -/
theorem c8_skip_missing_asof_witness :
    (∀ rec ∈ calculate_returns c8Rows 1, rec.code ≠ "Y") ∧
    (∃ rec ∈ calculate_returns c8Rows 1, rec.code = "X") := by
  have h := c8_skip_missing_asof c8Rows 1 "Y" (by decide)
  exact ⟨h.1, h.2 "X" (by decide) (by decide)⟩

/-- Fully populated fundamentals row for the C9 witness. -/
def c9Row : FundRow := ⟨"C", some 1, some 2, some 3, some 4, some 5, false⟩

/-- Two-bar price history of a single ticker Z for the C9 witness. -/
def c9Prices : List PriceRow := [⟨"Z", 0, 10, 0⟩, ⟨"Z", 1, 11, 0⟩]

/-- Witness for C9 at concrete one-ticker inputs on both sides. -/
theorem c9_no_invented_tickers_witness :
    (scoreRow (survivors [c9Row]) defaultWeights c9Row).base.ticker ∈
      ([c9Row].map fun r => r.ticker) ∧
    (mkMomentum "Z" (barsFor c9Prices "Z")).code ∈ (c9Prices.map fun r => r.code) := by
  constructor
  · apply (c9_no_invented_tickers [c9Row] defaultWeights c9Prices 1).1
    rw [mem_calculate_scores, scoredPipeline]
    exact List.mem_map_of_mem _ (by decide)
  · apply (c9_no_invented_tickers [c9Row] defaultWeights c9Prices 1).2
    exact mkMomentum_mem_calculate_returns (by decide) (by decide)

end JpxStockPred
